import Mathlib

/-!
Shallow embedding of the cleaning pipeline in
`src/transformation/to_silver/cleaning_template_pandas.py`.

A pandas `DataFrame` is modelled as an ordered list of named, typed columns of
equal-length cell lists.  Numeric cell values are exact rationals (`Q` below, a
kernel-computable normalised fraction type standing in for pandas' float64
arithmetic on the inputs exercised here); the missing marker `NaN`/`NaT` is the
explicit cell `Cell.na`.  Each Python function of the module is translated into
a Lean function of the same name.
-/

namespace PipelineCraft

/-- Exact rational numbers with a canonical (gcd-reduced, sign-on-numerator)
representation, so that structural equality is value equality and every
operation reduces in the kernel.  `den` is always positive. -/
structure Q where
  num : Int
  den : Nat
deriving DecidableEq

/-- Normalise a fraction `n / d` (with `d : Nat`) to canonical form.
`d = 0` yields `0`; this convention is only reachable in the pipeline where
pandas produces `NaN` from `0 / 0` and every comparison with the sparse
threshold is false, which agrees with `0 > threshold` being false. -/
def normQ (n : Int) (d : Nat) : Q :=
  if d = 0 then ⟨0, 1⟩
  else if n = 0 then ⟨0, 1⟩
  else
    let g := Nat.gcd n.natAbs d
    ⟨Int.sign n * ((n.natAbs / g : Nat) : Int), d / g⟩

def Q.ofNat (n : Nat) : Q := ⟨(n : Int), 1⟩

def Q.ofInt (i : Int) : Q := ⟨i, 1⟩

def Q.add (a b : Q) : Q := normQ (a.num * b.den + b.num * a.den) (a.den * b.den)

def Q.neg (a : Q) : Q := ⟨-a.num, a.den⟩

def Q.sub (a b : Q) : Q := Q.add a (Q.neg b)

def Q.mul (a b : Q) : Q := normQ (a.num * b.num) (a.den * b.den)

/-- Division; division by zero gives `0` (see `normQ` on the only reachable
zero-denominator case). -/
def Q.div (a b : Q) : Q := normQ (a.num * b.den * Int.sign b.num) (a.den * b.num.natAbs)

/-- Boolean strict order, by cross multiplication (denominators are positive). -/
def Q.ltB (a b : Q) : Bool := a.num * b.den < b.num * a.den

def Q.leB (a b : Q) : Bool := a.num * b.den ≤ b.num * a.den

def Q.maxQ (a b : Q) : Q := if Q.leB a b then b else a

def Q.minQ (a b : Q) : Q := if Q.leB a b then a else b

/-- Floor, used for quantile positions and for timestamp conversion. -/
def Q.floorQ (a : Q) : Int := Int.fdiv a.num a.den

/-- The pandas dtypes that the cleaning template distinguishes. -/
inductive Dtype where
  | int64
  | float64
  | object
  | category
  | datetime64
deriving DecidableEq

/-- One cell of a column: the missing marker (`NaN`/`NaT`), a numeric value,
a string, or a timestamp (nanosecond ticks). -/
inductive Cell where
  | na
  | num (q : Q)
  | str (s : String)
  | dt (t : Int)
deriving DecidableEq

structure Col where
  name : String
  dtype : Dtype
  cells : List Cell
deriving DecidableEq

structure DataFrame where
  cols : List Col
deriving DecidableEq

/-! ## standardize_column_names -/

/-- Models Python `str.lower` for the ASCII range relevant here. -/
def pyToLower (c : Char) : Char :=
  if 'A' ≤ c ∧ c ≤ 'Z' then Char.ofNat (c.toNat + 32) else c

/-- Characters kept unchanged by `re.sub(r'[^a-z0-9]', '_', col)`. -/
def isLowerDigit (c : Char) : Bool :=
  ('a' ≤ c && c ≤ 'z') || ('0' ≤ c && c ≤ '9')

/-- The replacement `re.sub(r'[^a-z0-9]', '_', col)`. -/
def subNonAlnum (l : List Char) : List Char :=
  l.map fun c => if isLowerDigit c then c else '_'

/-- Python `str.strip(x)`: drop the character `x` from both ends. -/
def stripChar (x : Char) (l : List Char) : List Char :=
  ((l.dropWhile (fun c => c = x)).reverse.dropWhile (fun c => c = x)).reverse

/-- The replacement `re.sub(r'_+', '_', col)`: collapse runs of underscores to one. -/
def squeezeRuns (x : Char) : List Char → List Char
  | [] => []
  | a :: rest =>
    match squeezeRuns x rest with
    | [] => [a]
    | b :: tail => if a = x ∧ b = x then b :: tail else a :: b :: tail

/-- Per-name cleaning `clean_column_name` from the source: lowercase, replace every character
outside `[a-z0-9]` by `_`, strip leading/trailing `_`, collapse `_` runs. -/
def clean_column_name (s : String) : String :=
  ⟨squeezeRuns '_' (stripChar '_' (subNonAlnum (s.data.map pyToLower)))⟩

/-- Decimal digits of `n` (most significant first); structural in a fuel
argument so that it reduces in the kernel.  `natReprVal` below proves it is
the standard decimal rendering. -/
def natReprAux : Nat → Nat → List Char
  | 0, _ => []
  | _ + 1, 0 => []
  | fuel + 1, n + 1 => natReprAux fuel ((n + 1) / 10) ++ [Nat.digitChar ((n + 1) % 10)]

/-- Decimal rendering of a natural number; models the Python f-string
`f"{counter}"`. -/
def natRepr (n : Nat) : String :=
  if n = 0 then "0" else ⟨natReprAux n n⟩

/-- The `seen` dictionary of `standardize_column_names`, as an association
list with insertion-order keys (a Python dict). -/
def lookupSeen : List (String × Nat) → String → Option Nat
  | [], _ => none
  | (k, v) :: rest, s => if k = s then some v else lookupSeen rest s

/-- Assignment `seen[col] = v` (update in place, or append a fresh key). -/
def bumpSeen : List (String × Nat) → String → Nat → List (String × Nat)
  | [], s, v => [(s, v)]
  | (k, w) :: rest, s, v =>
    if k = s then (k, v) :: rest else (k, w) :: bumpSeen rest s v

/-- The duplicate-handling loop of `standardize_column_names`: on a collision
with an already-seen base name emit `f"{col}_{counter}"` and increment the
counter; a fresh name is recorded with counter 1. -/
def uniquifyGo (seen : List (String × Nat)) : List String → List String
  | [] => []
  | c :: rest =>
    match lookupSeen seen c with
    | some counter =>
        (c ++ "_" ++ natRepr counter) :: uniquifyGo (bumpSeen seen c (counter + 1)) rest
    | none => c :: uniquifyGo (bumpSeen seen c 1) rest

def uniquify (l : List String) : List String := uniquifyGo [] l

/-- Specification form of the duplicate-handling loop, used to reason about
`uniquifyGo`: the `seen` dictionary stores, for each base name, its number of
occurrences in the processed prefix (`hist`). -/
def uniquifySpec (hist : List String) : List String → List String
  | [] => []
  | c :: rest =>
    (if hist.count c = 0 then c else c ++ "_" ++ natRepr (hist.count c)) ::
      uniquifySpec (hist ++ [c]) rest

/-- Horner value of a decimal digit string, used to show `natRepr` is
injective. -/
def digitsVal (l : List Char) : Nat := l.foldl (fun acc c => 10 * acc + (c.toNat - 48)) 0

/-- The source's `standardize_column_names`: clean every name, then make names unique. -/
def standardize_column_names (df : DataFrame) : DataFrame :=
  let newNames := uniquify (df.cols.map fun c => clean_column_name c.name)
  ⟨List.zipWith (fun c n => { c with name := n }) df.cols newNames⟩

/-! ## Rows and drop_duplicates -/

/-- Row count `len(df)`: the number of rows (length of the first column; a frame with
no columns has zero rows). -/
def numRows (df : DataFrame) : Nat :=
  match df.cols with
  | [] => 0
  | c :: _ => c.cells.length

/-- Row `i` of the frame. -/
def rowAt (df : DataFrame) (i : Nat) : List Cell :=
  df.cols.map fun c => c.cells.getD i Cell.na

/-- Indices of the rows kept by `df.drop_duplicates()`: the first occurrence
of every row value is kept (pandas treats `NaN = NaN` when comparing rows,
as does `Cell.na = Cell.na` here). -/
def keepIdxs (df : DataFrame) : List Nat :=
  (List.range (numRows df)).filter fun i =>
    !((List.range i).any fun j => decide (rowAt df j = rowAt df i))

/-- Row de-duplication `df.drop_duplicates()`. -/
def drop_duplicates (df : DataFrame) : DataFrame :=
  ⟨df.cols.map fun c => { c with cells := (keepIdxs df).map fun i => c.cells.getD i Cell.na }⟩

/-! ## handle_missing_values -/

/-- Insertion sort (ascending) for the exact rationals. -/
def insertSorted (q : Q) : List Q → List Q
  | [] => [q]
  | x :: rest => if Q.leB q x then q :: x :: rest else x :: insertSorted q rest

def sortQ (l : List Q) : List Q := l.foldr insertSorted []

/-- The non-missing numeric values of a column (pandas statistics skip NaN). -/
def colNumVals (cells : List Cell) : List Q :=
  cells.filterMap fun c =>
    match c with
    | Cell.num q => some q
    | _ => none

/-- The median `Series.median()` over the non-missing values: middle element, or the
mean of the two middles; `none` models the NaN median of an empty column. -/
def median (l : List Q) : Option Q :=
  let s := sortQ l
  let n := s.length
  if n = 0 then none
  else if n % 2 = 1 then some (s.getD (n / 2) (Q.ofNat 0))
  else some (Q.div (Q.add (s.getD (n / 2 - 1) (Q.ofNat 0)) (s.getD (n / 2) (Q.ofNat 0))) (Q.ofNat 2))

/-- Numeric imputation `df[col].fillna(df[col].median())`: when the median is NaN (all-missing
column) the fill is a no-op, exactly as `fillna(NaN)` is in pandas. -/
def fillNumeric (cells : List Cell) : List Cell :=
  match median (colNumVals cells) with
  | some m => cells.map fun c => if c = Cell.na then Cell.num m else c
  | none => cells

/-- The non-missing string values of a column. -/
def colStrVals (cells : List Cell) : List String :=
  cells.filterMap fun c =>
    match c with
    | Cell.str s => some s
    | _ => none

/-- The mode `df[col].mode()[0]`: the most frequent non-missing value; pandas returns
the candidates sorted ascending, so ties resolve to the smallest string.
`none` models the empty mode of an all-missing column. -/
def modeStr (cells : List Cell) : Option String :=
  let vals := colStrVals cells
  let distinct := vals.eraseDups
  let maxCnt := distinct.foldl (fun m v => max m (vals.count v)) 0
  match distinct.filter (fun v => vals.count v == maxCnt) with
  | [] => none
  | c :: cs => some (cs.foldl (fun m v => if v < m then v else m) c)

/-- Categorical imputation `df[col].fillna(mode()[0] if not mode().empty else "Unknown")`. -/
def fillCategorical (cells : List Cell) : List Cell :=
  let fv := match modeStr cells with
    | some m => m
    | none => "Unknown"
  cells.map fun c => if c = Cell.na then Cell.str fv else c

/-- The source's `handle_missing_values`: numeric columns are filled with the median,
object/category columns with the mode (fallback "Unknown"); other dtypes are
not selected by `select_dtypes` and pass through. -/
def handle_missing_values (df : DataFrame) : DataFrame :=
  ⟨df.cols.map fun c =>
    match c.dtype with
    | Dtype.int64 => { c with cells := fillNumeric c.cells }
    | Dtype.float64 => { c with cells := fillNumeric c.cells }
    | Dtype.object => { c with cells := fillCategorical c.cells }
    | Dtype.category => { c with cells := fillCategorical c.cells }
    | Dtype.datetime64 => c⟩

/-! ## fix_data_types -/

def digitVal (c : Char) : Nat := c.toNat - 48

def isDigitCh (c : Char) : Bool := '0' ≤ c && c ≤ '9'

/-- Parse a nonempty all-digit character list. -/
def parseDigits (l : List Char) : Option Nat :=
  if l.isEmpty then none
  else if l.all isDigitCh then some (l.foldl (fun acc c => 10 * acc + digitVal c) 0)
  else none

/-- Models the numeric-literal parsing done by `pd.to_numeric` on a string
cell: optional sign, integer digits, optional fractional digits.  Returns the
exact value and whether the literal was integer-form (which decides between
int64 and float64 for the converted column). -/
def parseNumeric (s : String) : Option (Q × Bool) :=
  let signedBody : Bool × List Char :=
    match s.data with
    | '-' :: rest => (true, rest)
    | '+' :: rest => (false, rest)
    | l => (false, l)
  let neg := signedBody.1
  match signedBody.2.splitOn '.' with
  | [ip] =>
    match parseDigits ip with
    | some n => some ((if neg then Q.neg (Q.ofNat n) else Q.ofNat n), true)
    | none => none
  | [ip, fp] =>
    if ip.isEmpty && fp.isEmpty then none
    else if ip.all isDigitCh && fp.all isDigitCh then
      let ipv := ip.foldl (fun acc c => 10 * acc + digitVal c) 0
      let fpv := fp.foldl (fun acc c => 10 * acc + digitVal c) 0
      let mag := Q.add (Q.ofNat ipv) (Q.div (Q.ofNat fpv) (Q.ofNat (10 ^ fp.length)))
      some ((if neg then Q.neg mag else mag), false)
    else none
  | _ => none

/-- All-or-nothing elementwise conversion (`pd.to_numeric` / `pd.to_datetime`
raise on the first unconvertible element, converting nothing). -/
def optionMapM (f : α → Option β) : List α → Option (List β)
  | [] => some []
  | a :: l =>
    match f a, optionMapM f l with
    | some b, some bs => some (b :: bs)
    | _, _ => none

/-- One cell under `pd.to_numeric`: NaN passes through, a string must be a
numeric literal, anything else fails the whole conversion. -/
def toNumericCell : Cell → Option (Cell × Bool)
  | Cell.na => some (Cell.na, true)
  | Cell.str s =>
    match parseNumeric s with
    | some (q, isInt) => some (Cell.num q, isInt)
    | none => none
  | Cell.num q => some (Cell.num q, false)
  | Cell.dt _ => none

/-- Whole-column `pd.to_numeric(df[col])` on an object column: int64 when every literal is
integer-form and there is no NaN (NaN forces float64), else float64. -/
def to_numeric_col (c : Col) : Option Col :=
  match optionMapM toNumericCell c.cells with
  | none => none
  | some pairs =>
    let anyNa := c.cells.any fun x => decide (x = Cell.na)
    let allInt := pairs.all fun p => p.2
    some { c with
      cells := pairs.map fun p => p.1,
      dtype := if allInt && !anyNa then Dtype.int64 else Dtype.float64 }

/-- datetime64[ns] range bound: numeric input to `pd.to_datetime` is read as
nanoseconds since the epoch and raises out of Int64 range. -/
def nsBound : Int := 2 ^ 63

def toDatetimeFromNum (q : Q) : Option Int :=
  let t := Q.floorQ q
  if -nsBound ≤ t ∧ t < nsBound then some t else none

/-- Models `pd.to_datetime` parsing of an ISO `YYYY-MM-DD` string cell (the
one consistent format relevant here).  The tick value abstracts the epoch
arithmetic of the resulting timestamp; it is injective in the date. -/
def parseDateStr (s : String) : Option Int :=
  match s.data.splitOn '-' with
  | [y, m, d] =>
    if y.length = 4 && m.length = 2 && d.length = 2 then
      match parseDigits y, parseDigits m, parseDigits d with
      | some yv, some mv, some dv =>
        if 1 ≤ mv && mv ≤ 12 && 1 ≤ dv && dv ≤ 31 then
          some ((yv * 10000 + mv * 100 + dv : Nat) : Int)
        else none
      | _, _, _ => none
    else none
  | _ => none

/-- Whole-column `pd.to_datetime(df[col])`: a numeric column converts via epoch
nanoseconds (this always succeeds for in-range values — the root of the
fix_data_types bug); an object column needs every non-missing cell to parse
as a date; NaN becomes NaT. -/
def to_datetime_col (c : Col) : Option Col :=
  match c.dtype with
  | Dtype.int64 =>
    (optionMapM (fun cell =>
      match cell with
      | Cell.na => some Cell.na
      | Cell.num q => (toDatetimeFromNum q).map Cell.dt
      | _ => none) c.cells).map fun cs => { c with cells := cs, dtype := Dtype.datetime64 }
  | Dtype.float64 =>
    (optionMapM (fun cell =>
      match cell with
      | Cell.na => some Cell.na
      | Cell.num q => (toDatetimeFromNum q).map Cell.dt
      | _ => none) c.cells).map fun cs => { c with cells := cs, dtype := Dtype.datetime64 }
  | Dtype.object =>
    (optionMapM (fun cell =>
      match cell with
      | Cell.na => some Cell.na
      | Cell.str s => (parseDateStr s).map Cell.dt
      | _ => none) c.cells).map fun cs => { c with cells := cs, dtype := Dtype.datetime64 }
  | _ => none

/-- The source's `fix_data_types`: for each originally-object column, try `pd.to_numeric`
(keeping the column on failure), and then — unconditionally, because the
second `try` block is not guarded by the first one failing — try
`pd.to_datetime` on the possibly-already-converted column. -/
def fix_data_types (df : DataFrame) : DataFrame :=
  ⟨df.cols.map fun c =>
    if c.dtype = Dtype.object then
      let c1 := match to_numeric_col c with
        | some c2 => c2
        | none => c
      match to_datetime_col c1 with
      | some c2 => c2
      | none => c1
    else c⟩

/-! ## handle_outliers -/

/-- Quantiles `Series.quantile(q)` with the default linear interpolation, over the
non-missing values; `none` models the NaN quantile of an empty column. -/
def quantile (l : List Q) (q : Q) : Option Q :=
  let s := sortQ l
  let n := s.length
  if n = 0 then none
  else
    let pos := Q.mul q (Q.ofNat (n - 1))
    let i := (Q.floorQ pos).toNat
    let frac := Q.sub pos (Q.ofInt (Q.floorQ pos))
    if i + 1 < n then
      let xi := s.getD i (Q.ofNat 0)
      let xj := s.getD (i + 1) (Q.ofNat 0)
      some (Q.add xi (Q.mul frac (Q.sub xj xi)))
    else some (s.getD (n - 1) (Q.ofNat 0))

/-- Clipping `Series.clip(lower, upper)` on one cell; NaN is left as NaN. -/
def clipCell (lo hi : Q) : Cell → Cell
  | Cell.num q => Cell.num (Q.minQ (Q.maxQ q lo) hi)
  | c => c

/-- The source's `handle_outliers` with the default column set (all numeric columns) and
multiplier 1.5: cap every value to `[Q1 - 1.5*IQR, Q3 + 1.5*IQR]`.  An
all-missing column has NaN quantiles and `clip(NaN, NaN)` is a no-op. -/
def handle_outliers (df : DataFrame) : DataFrame :=
  ⟨df.cols.map fun c =>
    match c.dtype with
    | Dtype.int64 =>
      match quantile (colNumVals c.cells) (normQ 1 4), quantile (colNumVals c.cells) (normQ 3 4) with
      | some q1, some q3 =>
        let iqr := Q.sub q3 q1
        let lo := Q.sub q1 (Q.mul (normQ 3 2) iqr)
        let hi := Q.add q3 (Q.mul (normQ 3 2) iqr)
        { c with cells := c.cells.map (clipCell lo hi) }
      | _, _ => c
    | Dtype.float64 =>
      match quantile (colNumVals c.cells) (normQ 1 4), quantile (colNumVals c.cells) (normQ 3 4) with
      | some q1, some q3 =>
        let iqr := Q.sub q3 q1
        let lo := Q.sub q1 (Q.mul (normQ 3 2) iqr)
        let hi := Q.add q3 (Q.mul (normQ 3 2) iqr)
        { c with cells := c.cells.map (clipCell lo hi) }
      | _, _ => c
    | _ => c⟩

/-! ## clean_text_data -/

/-- Stringification `astype(str)` on one cell of an object column: a string stays itself and
NaN becomes the literal string "nan" (object columns hold only strings or
NaN in a dtype-consistent frame; other cell kinds are unreachable there). -/
def pyStr : Cell → String
  | Cell.str s => s
  | Cell.na => "nan"
  | Cell.num _ => ""
  | Cell.dt _ => ""

/-- Python `\w` (ASCII): alphanumeric or underscore. -/
def isWordCh (c : Char) : Bool := c.isAlphanum || c = '_'

/-- Python `str.strip()`: drop whitespace from both ends. -/
def pyStrip (l : List Char) : List Char :=
  ((l.dropWhile Char.isWhitespace).reverse.dropWhile Char.isWhitespace).reverse

/-- One cell under `clean_text_data`: `astype(str)`, `.str.strip()`,
`.str.lower()`, then `re.sub(r'[^\w\s]', '', x)` — in that source order, so
removal of specials happens after stripping and can expose new edge
whitespace. -/
def cleanTextCell (cell : Cell) : Cell :=
  let s1 := pyStrip (pyStr cell).data
  let s2 := s1.map pyToLower
  Cell.str ⟨s2.filter fun c => isWordCh c || c.isWhitespace⟩

/-- The source's `clean_text_data`: applies to every object column. -/
def clean_text_data (df : DataFrame) : DataFrame :=
  ⟨df.cols.map fun c =>
    if c.dtype = Dtype.object then { c with cells := c.cells.map cleanTextCell } else c⟩

/-! ## remove_sparse_columns -/

def countNa (cells : List Cell) : Nat := cells.countP fun c => decide (c = Cell.na)

/-- The default `threshold=0.7` of `remove_sparse_columns`. -/
def sparseThreshold : Q := normQ 7 10

/-- The source's `remove_sparse_columns`: drop every column whose missing fraction
`isnull().sum() / len(df)` strictly exceeds the threshold.  With zero rows
pandas compares `NaN > 0.7` (false); here `0/0 = 0 > 7/10` is also false. -/
def remove_sparse_columns (df : DataFrame) : DataFrame :=
  let n := numRows df
  ⟨df.cols.filter fun c =>
    !(Q.ltB sparseThreshold (Q.div (Q.ofNat (countNa c.cells)) (Q.ofNat n)))⟩

/-! ## standardize_categories -/

/-- The rare-category `0.01` threshold. -/
def rareThreshold : Q := normQ 1 100

/-- The source's `standardize_categories`: in every object/category column replace each
value whose frequency `value_counts/len(df)` is strictly below 1% with
"Other" (`value_counts` skips NaN, so missing markers are not replaced). -/
def standardize_categories (df : DataFrame) : DataFrame :=
  let n := numRows df
  ⟨df.cols.map fun c =>
    match c.dtype with
    | Dtype.object =>
      { c with cells := c.cells.map fun x =>
          match x with
          | Cell.str s =>
            if Q.ltB (Q.div (Q.ofNat ((colStrVals c.cells).count s)) (Q.ofNat n)) rareThreshold
            then Cell.str "Other" else Cell.str s
          | other => other }
    | Dtype.category =>
      { c with cells := c.cells.map fun x =>
          match x with
          | Cell.str s =>
            if Q.ltB (Q.div (Q.ofNat ((colStrVals c.cells).count s)) (Q.ofNat n)) rareThreshold
            then Cell.str "Other" else Cell.str s
          | other => other }
    | _ => c⟩

/-! ## clean_dataframe -/

/-- The source's `clean_dataframe`: copy (value identity here), standardize column names,
drop duplicate rows, impute, coerce types, cap outliers, normalize text,
prune sparse columns, collapse rare categories — in the source's order. -/
def clean_dataframe (df : DataFrame) : DataFrame :=
  let df1 := standardize_column_names df
  let df2 := drop_duplicates df1
  let df3 := handle_missing_values df2
  let df4 := fix_data_types df3
  let df5 := handle_outliers df4
  let df6 := clean_text_data df5
  let df7 := remove_sparse_columns df6
  standardize_categories df7

/-! ## Reference-level model for the aliasing claim

`clean_dataframe` at the level of Python object references: the heap is a
store of frames, a reference is an index.  `df.copy()` allocates; steps that
return a fresh frame allocate; steps that assign columns in place write to
the working slot.  The caller's slot is never written. -/

def emptyDf : DataFrame := ⟨[]⟩

def heapGet (h : List DataFrame) (r : Nat) : DataFrame := h.getD r emptyDf

def heapAlloc (h : List DataFrame) (df : DataFrame) : List DataFrame × Nat :=
  (h ++ [df], h.length)

def heapSet (h : List DataFrame) (r : Nat) (df : DataFrame) : List DataFrame :=
  h.set r df

def clean_dataframe_heap (h : List DataFrame) (src : Nat) : List DataFrame × Nat :=
  let a1 := heapAlloc h (heapGet h src)
  let a2 := heapAlloc a1.1 (standardize_column_names (heapGet a1.1 a1.2))
  let a3 := heapAlloc a2.1 (drop_duplicates (heapGet a2.1 a2.2))
  let h4 := heapSet a3.1 a3.2 (handle_missing_values (heapGet a3.1 a3.2))
  let h5 := heapSet h4 a3.2 (fix_data_types (heapGet h4 a3.2))
  let h6 := heapSet h5 a3.2 (handle_outliers (heapGet h5 a3.2))
  let h7 := heapSet h6 a3.2 (clean_text_data (heapGet h6 a3.2))
  let a8 := heapAlloc h7 (remove_sparse_columns (heapGet h7 a3.2))
  let h9 := heapSet a8.1 a8.2 (standardize_categories (heapGet a8.1 a8.2))
  (h9, a8.2)

/-! ## Theorems for the concrete (closed) claims -/

/-- Claim C1 (code bug): in `fix_data_types`, the datetime reinterpretation is
not guarded on the numeric one failing — both `try` blocks run, and
`pd.to_datetime` accepts a numeric column as epoch nanoseconds.  A text column
whose every cell converts losslessly to numeric therefore ends up with
datetime64 dtype, not numeric: evaluated on the column `["1", "2"]`, the
pipeline returns a datetime64 column of epoch ticks 1 and 2. -/
theorem fix_data_types_numeric_strings_become_datetime :
    (clean_dataframe ⟨[⟨"v", Dtype.object, [Cell.str "1", Cell.str "2"]⟩]⟩).cols =
      [⟨"v", Dtype.datetime64, [Cell.dt 1, Cell.dt 2]⟩] := by decide

/-- Claim C3 (code bug): an all-missing float64 column has a NaN median,
`fillna(NaN)` silently does nothing, and the sparse-column pruner then drops
the column — no distinct, named condition is ever surfaced.  Evaluated on a
single all-missing column, `clean_dataframe` returns an empty frame. -/
theorem all_missing_numeric_column_silently_dropped :
    clean_dataframe ⟨[⟨"x", Dtype.float64, [Cell.na, Cell.na]⟩]⟩ = ⟨[]⟩ := by decide

/-- Claim C2 counterexample: a float64 column that is 80% missing in the
input (4 of 5 cells, strictly above the 0.7 threshold) is still present in
the output of `clean_dataframe`, because imputation runs before the sparse
pruner and fills the column with its median. -/
theorem sparse_high_missing_column_retained :
    Q.ltB sparseThreshold (Q.div (Q.ofNat 4) (Q.ofNat 5)) = true ∧
    "x" ∈ (clean_dataframe ⟨[
      ⟨"id", Dtype.int64, [Cell.num (Q.ofNat 1), Cell.num (Q.ofNat 2), Cell.num (Q.ofNat 3),
        Cell.num (Q.ofNat 4), Cell.num (Q.ofNat 5)]⟩,
      ⟨"x", Dtype.float64, [Cell.na, Cell.na, Cell.na, Cell.na, Cell.num (Q.ofNat 7)]⟩]⟩).cols.map
        (fun c => c.name) := by decide

/-- Claim C4 counterexample: raw names `["a", "a", "a_1"]` standardize to
`["a", "a_1", "a_1"]` — the suffix generated for the duplicate "a" is never
recorded in `seen`, so it collides with the raw name "a_1" and the output
names are not pairwise distinct. -/
theorem standardize_duplicate_names_collide :
    ((standardize_column_names ⟨[⟨"a", Dtype.int64, []⟩, ⟨"a", Dtype.int64, []⟩,
      ⟨"a_1", Dtype.int64, []⟩]⟩).cols.map fun c => c.name) = ["a", "a_1", "a_1"] ∧
    ¬ ((standardize_column_names ⟨[⟨"a", Dtype.int64, []⟩, ⟨"a", Dtype.int64, []⟩,
      ⟨"a_1", Dtype.int64, []⟩]⟩).cols.map fun c => c.name).Nodup := by decide

/-- Claim C5 counterexample: `standardize_column_names` is not idempotent.
On raw names `["b", "b", "b_1"]` one application yields `["b", "b_1", "b_1"]`
and a second application yields `["b", "b_1", "b_1_1"]`. -/
theorem standardize_not_idempotent :
    standardize_column_names (standardize_column_names ⟨[⟨"b", Dtype.int64, []⟩,
      ⟨"b", Dtype.int64, []⟩, ⟨"b_1", Dtype.int64, []⟩]⟩) ≠
    standardize_column_names ⟨[⟨"b", Dtype.int64, []⟩,
      ⟨"b", Dtype.int64, []⟩, ⟨"b_1", Dtype.int64, []⟩]⟩ := by decide

/-- Claim C10 counterexample: the output of `clean_dataframe` can hold a
text cell with leading whitespace.  `clean_text_data` strips before removing
special characters, so `"? x"` becomes `" x"` — a cell that is neither the
sentinel "Other" nor free of leading/trailing whitespace. -/
theorem clean_text_leading_whitespace_cell :
    ((clean_dataframe ⟨[⟨"c", Dtype.object, [Cell.str "? x", Cell.str "? x"]⟩]⟩).cols.map
      fun c => c.cells) = [[Cell.str " x"]] ∧
    " x" ≠ "Other" ∧ (" x").data.head? = some ' ' := by decide

/-! ## Claim C8: the caller's frame is never written -/

theorem heapGet_append (h : List DataFrame) (x : DataFrame) (i : Nat) (hi : i < h.length) :
    heapGet (h ++ [x]) i = heapGet h i := by
  induction h generalizing i with
  | nil => cases hi
  | cons d t ih =>
    cases i with
    | zero => rfl
    | succ j =>
      have hj : j < t.length := by simpa using hi
      simpa [heapGet, List.getD] using ih j hj

theorem heapGet_set_ne (h : List DataFrame) (i j : Nat) (df : DataFrame) (hne : i ≠ j) :
    heapGet (heapSet h j df) i = heapGet h i := by
  induction h generalizing i j with
  | nil => rfl
  | cons d t ih =>
    cases j with
    | zero =>
      cases i with
      | zero => exact absurd rfl hne
      | succ k => rfl
    | succ j2 =>
      cases i with
      | zero => rfl
      | succ k =>
        have : k ≠ j2 := fun hk => hne (by omega)
        simpa [heapGet, heapSet, List.getD] using ih k j2 this

theorem heapSet_length (h : List DataFrame) (r : Nat) (df : DataFrame) :
    (heapSet h r df).length = h.length := by
  simp [heapSet]

/-- Claim C8: `clean_dataframe` never mutates the caller's table.  In the
reference-level model, running the pipeline on the frame stored at `src`
leaves the value stored at `src` untouched: the entry copy targets a fresh
slot and every later step writes only to working slots. -/
theorem clean_dataframe_preserves_caller_table (h : List DataFrame) (src : Nat)
    (hs : src < h.length) :
    heapGet (clean_dataframe_heap h src).1 src = heapGet h src := by
  simp only [clean_dataframe_heap, heapAlloc]
  rw [heapGet_set_ne, heapGet_append, heapGet_set_ne, heapGet_set_ne, heapGet_set_ne,
    heapGet_set_ne, heapGet_append, heapGet_append, heapGet_append]
  · exact hs
  · simpa using Nat.lt_succ_of_lt hs
  · simp
    omega
  · simp [heapSet_length]
    omega
  · simp [heapSet_length]
    omega
  · simp [heapSet_length]
    omega
  · simp [heapSet_length]
    omega
  · simp [heapSet_length]
    omega
  · simp [heapSet_length]
    omega

/-- Witness for C8 at a concrete one-frame heap. -/
theorem clean_dataframe_preserves_caller_table_witness :
    heapGet (clean_dataframe_heap [⟨[⟨"a", Dtype.int64, [Cell.num (Q.ofNat 1)]⟩]⟩] 0).1 0 =
      heapGet [⟨[⟨"a", Dtype.int64, [Cell.num (Q.ofNat 1)]⟩]⟩] 0 :=
  clean_dataframe_preserves_caller_table _ 0 (by decide)

/-! ## Structural lemmas about the pipeline steps -/

theorem uniquifyGo_length (l : List String) : ∀ seen, (uniquifyGo seen l).length = l.length := by
  induction l with
  | nil => intro seen; rfl
  | cons c rest ih =>
    intro seen
    simp only [uniquifyGo]
    cases lookupSeen seen c <;> simp [ih]

theorem uniquify_length (l : List String) : (uniquify l).length = l.length :=
  uniquifyGo_length l []

/-- Mapping a projection that ignores the name over the renaming zip. -/
theorem zipWith_rename_map {α : Type} (f : Col → α)
    (hf : ∀ (c : Col) (n : String), f { c with name := n } = f c) :
    ∀ (cols : List Col) (ns : List String), ns.length = cols.length →
      (List.zipWith (fun c n => { c with name := n }) cols ns).map f = cols.map f := by
  intro cols
  induction cols with
  | nil => intro ns _; simp
  | cons c t ih =>
    intro ns hlen
    cases ns with
    | nil => simp at hlen
    | cons n ns2 =>
      simp only [List.zipWith_cons_cons, List.map_cons]
      rw [hf, ih ns2 (by simpa using hlen)]

/-- Mapping a projection that a per-column transform preserves. -/
theorem map_proj_map {α : Type} {g : Col → Col} {f : Col → α} (h : ∀ c, f (g c) = f c)
    (cols : List Col) : (cols.map g).map f = cols.map f := by
  induction cols with
  | nil => rfl
  | cons c t ih => simp only [List.map_cons, h, ih]

theorem standardize_cols_cells (df : DataFrame) :
    (standardize_column_names df).cols.map (fun c => c.cells) = df.cols.map (fun c => c.cells) := by
  unfold standardize_column_names
  exact zipWith_rename_map (fun c => c.cells) (fun c n => rfl) df.cols _
    (by simp [uniquify_length])

theorem standardize_cols_length (df : DataFrame) :
    (standardize_column_names df).cols.length = df.cols.length := by
  have h := congrArg List.length (standardize_cols_cells df)
  simpa using h

theorem numRows_congr {d1 d2 : DataFrame}
    (h : d1.cols.map (fun c => c.cells) = d2.cols.map (fun c => c.cells)) :
    numRows d1 = numRows d2 := by
  rcases d1 with ⟨cs1⟩
  rcases d2 with ⟨cs2⟩
  cases cs1 with
  | nil =>
    cases cs2 with
    | nil => rfl
    | cons c t => simp at h
  | cons c1 t1 =>
    cases cs2 with
    | nil => simp at h
    | cons c2 t2 =>
      simp only [List.map_cons, List.cons.injEq] at h
      simp [numRows, h.1]

theorem rowAt_eq (df : DataFrame) (i : Nat) :
    rowAt df i = (df.cols.map fun c => c.cells).map (fun cl => cl.getD i Cell.na) := by
  simp [rowAt, List.map_map]

theorem keepIdxs_congr {d1 d2 : DataFrame}
    (h : d1.cols.map (fun c => c.cells) = d2.cols.map (fun c => c.cells)) :
    keepIdxs d1 = keepIdxs d2 := by
  have hr : ∀ j, rowAt d1 j = rowAt d2 j := fun j => by rw [rowAt_eq, rowAt_eq, h]
  unfold keepIdxs
  rw [numRows_congr h]
  apply List.filter_congr
  intro i _
  simp [hr]

theorem drop_duplicates_cols (df : DataFrame) :
    (drop_duplicates df).cols = df.cols.map fun c =>
      { c with cells := (keepIdxs df).map fun i => c.cells.getD i Cell.na } := rfl

/-- Renaming commutes with the per-column cell filtering of de-duplication. -/
theorem map_updCells_zipWith (K : List Nat) :
    ∀ (cols : List Col) (ns : List String),
      (List.zipWith (fun c n => { c with name := n }) cols ns).map
        (fun c => { c with cells := K.map fun i => c.cells.getD i Cell.na }) =
      List.zipWith (fun c n => { c with name := n })
        (cols.map fun c => { c with cells := K.map fun i => c.cells.getD i Cell.na }) ns := by
  intro cols
  induction cols with
  | nil => intro ns; simp
  | cons c t ih =>
    intro ns
    cases ns with
    | nil => simp
    | cons n ns2 =>
      simp only [List.zipWith_cons_cons, List.map_cons]
      rw [ih]

theorem DataFrame.eq_of_cols {d1 d2 : DataFrame} (h : d1.cols = d2.cols) : d1 = d2 := by
  cases d1
  cases d2
  simpa using h

/-- Commutation: `drop_duplicates` and `standardize_column_names` commute: renaming
columns changes no cell, so the set of duplicate rows is unchanged. -/
theorem dedup_standardize_comm (df : DataFrame) :
    drop_duplicates (standardize_column_names df) =
      standardize_column_names (drop_duplicates df) := by
  have hk : keepIdxs (standardize_column_names df) = keepIdxs df :=
    keepIdxs_congr (standardize_cols_cells df)
  have hnames : (drop_duplicates df).cols.map (fun c => clean_column_name c.name) =
      df.cols.map (fun c => clean_column_name c.name) := by
    rw [drop_duplicates_cols]
    exact @map_proj_map String
      (fun c => { c with cells := (keepIdxs df).map fun i => c.cells.getD i Cell.na })
      (fun c => clean_column_name c.name) (fun c => rfl) df.cols
  apply DataFrame.eq_of_cols
  have hstd : (standardize_column_names df).cols =
      List.zipWith (fun c n => { c with name := n }) df.cols
        (uniquify (df.cols.map fun c => clean_column_name c.name)) := rfl
  have hstd2 : (standardize_column_names (drop_duplicates df)).cols =
      List.zipWith (fun c n => { c with name := n }) (drop_duplicates df).cols
        (uniquify ((drop_duplicates df).cols.map fun c => clean_column_name c.name)) := rfl
  rw [drop_duplicates_cols, hk, hstd, hstd2, hnames, drop_duplicates_cols]
  exact map_updCells_zipWith (keepIdxs df) df.cols _

/-- Claim C6: `clean_dataframe` computes exactly the composition
de-duplicate → normalize names → impute → coerce types → cap outliers →
normalize text → prune sparse columns → collapse rare categories.  (The
source applies name normalization before de-duplication, but the two steps
commute, so the composite equals the specified order.) -/
theorem clean_dataframe_step_order (df : DataFrame) :
    clean_dataframe df =
      standardize_categories (remove_sparse_columns (clean_text_data (handle_outliers
        (fix_data_types (handle_missing_values (standardize_column_names
          (drop_duplicates df))))))) := by
  show standardize_categories (remove_sparse_columns (clean_text_data (handle_outliers
      (fix_data_types (handle_missing_values (drop_duplicates
        (standardize_column_names df))))))) = _
  rw [dedup_standardize_comm]

/-! ## Length preservation of the per-column transforms (for Claim C7) -/

theorem fillNumeric_length (cells : List Cell) : (fillNumeric cells).length = cells.length := by
  unfold fillNumeric
  cases median (colNumVals cells) <;> simp

theorem fillCategorical_length (cells : List Cell) :
    (fillCategorical cells).length = cells.length := by
  simp [fillCategorical]

theorem optionMapM_length {α β : Type} (f : α → Option β) :
    ∀ (l : List α) (l2 : List β), optionMapM f l = some l2 → l2.length = l.length := by
  intro l
  induction l with
  | nil =>
    intro l2 h
    cases h
    rfl
  | cons a t ih =>
    intro l2 h
    unfold optionMapM at h
    cases hf : f a with
    | none => rw [hf] at h; cases h
    | some b =>
      cases hm : optionMapM f t with
      | none => rw [hf, hm] at h; cases h
      | some bs =>
        rw [hf, hm] at h
        cases h
        simp [ih bs hm]

theorem to_numeric_col_cells_len {c c2 : Col} (h : to_numeric_col c = some c2) :
    c2.cells.length = c.cells.length := by
  unfold to_numeric_col at h
  cases hm : optionMapM toNumericCell c.cells with
  | none => rw [hm] at h; cases h
  | some pairs =>
    rw [hm] at h
    cases h
    simp [optionMapM_length _ _ _ hm]

theorem to_datetime_col_cells_len {c c2 : Col} (h : to_datetime_col c = some c2) :
    c2.cells.length = c.cells.length := by
  unfold to_datetime_col at h
  rcases c with ⟨nm, dt, cl⟩
  cases dt <;> simp only [] at h
  case int64 =>
    cases hm : optionMapM (fun cell => match cell with
      | Cell.na => some Cell.na
      | Cell.num q => (toDatetimeFromNum q).map Cell.dt
      | _ => none) cl with
    | none => rw [hm] at h; cases h
    | some cs =>
      rw [hm] at h
      cases h
      simpa using optionMapM_length _ _ _ hm
  case float64 =>
    cases hm : optionMapM (fun cell => match cell with
      | Cell.na => some Cell.na
      | Cell.num q => (toDatetimeFromNum q).map Cell.dt
      | _ => none) cl with
    | none => rw [hm] at h; cases h
    | some cs =>
      rw [hm] at h
      cases h
      simpa using optionMapM_length _ _ _ hm
  case object =>
    cases hm : optionMapM (fun cell => match cell with
      | Cell.na => some Cell.na
      | Cell.str s => (parseDateStr s).map Cell.dt
      | _ => none) cl with
    | none => rw [hm] at h; cases h
    | some cs =>
      rw [hm] at h
      cases h
      simpa using optionMapM_length _ _ _ hm
  case category => cases h
  case datetime64 => cases h

theorem handle_missing_cells_len (df : DataFrame) :
    (handle_missing_values df).cols.map (fun c => c.cells.length) =
      df.cols.map (fun c => c.cells.length) := by
  refine map_proj_map ?_ df.cols
  intro c
  rcases c with ⟨nm, dt, cl⟩
  cases dt <;> simp [fillNumeric_length, fillCategorical_length]

theorem fix_data_types_cells_len (df : DataFrame) :
    (fix_data_types df).cols.map (fun c => c.cells.length) =
      df.cols.map (fun c => c.cells.length) := by
  refine map_proj_map ?_ df.cols
  intro c
  by_cases hc : c.dtype = Dtype.object
  · rw [if_pos hc]
    cases hn : to_numeric_col c with
    | none =>
      cases hd : to_datetime_col c with
      | none => simp [hn, hd]
      | some c2 => simp [hn, hd, to_datetime_col_cells_len hd]
    | some c1 =>
      cases hd : to_datetime_col c1 with
      | none => simp [hn, hd, to_numeric_col_cells_len hn]
      | some c2 =>
        simp [hn, hd, to_datetime_col_cells_len hd, to_numeric_col_cells_len hn]
  · rw [if_neg hc]

theorem handle_outliers_cells_len (df : DataFrame) :
    (handle_outliers df).cols.map (fun c => c.cells.length) =
      df.cols.map (fun c => c.cells.length) := by
  refine map_proj_map ?_ df.cols
  intro c
  rcases c with ⟨nm, dt, cl⟩
  cases dt <;> simp only []
  case int64 =>
    cases quantile (colNumVals cl) (normQ 1 4) <;> cases quantile (colNumVals cl) (normQ 3 4) <;>
      simp
  case float64 =>
    cases quantile (colNumVals cl) (normQ 1 4) <;> cases quantile (colNumVals cl) (normQ 3 4) <;>
      simp

theorem clean_text_cells_len (df : DataFrame) :
    (clean_text_data df).cols.map (fun c => c.cells.length) =
      df.cols.map (fun c => c.cells.length) := by
  refine map_proj_map ?_ df.cols
  intro c
  by_cases hc : c.dtype = Dtype.object
  · rw [if_pos hc]; simp
  · rw [if_neg hc]

theorem standardize_categories_cells_len (df : DataFrame) :
    (standardize_categories df).cols.map (fun c => c.cells.length) =
      df.cols.map (fun c => c.cells.length) := by
  refine map_proj_map ?_ df.cols
  intro c
  rcases c with ⟨nm, dt, cl⟩
  cases dt <;> simp

theorem numRows_le_of_mem_len {df : DataFrame} {L : Nat}
    (h : ∀ c ∈ df.cols, c.cells.length = L) : numRows df ≤ L := by
  rcases df with ⟨cs⟩
  cases cs with
  | nil => exact Nat.zero_le L
  | cons c t => exact Nat.le_of_eq (h c (List.mem_cons_self c t))

theorem all_len_of_map_len_eq {cs1 cs2 : List Col} {L : Nat}
    (h : cs1.map (fun c => c.cells.length) = cs2.map (fun c => c.cells.length))
    (h2 : ∀ c ∈ cs2, c.cells.length = L) : ∀ c ∈ cs1, c.cells.length = L := by
  intro c hc
  have hmem : c.cells.length ∈ cs1.map (fun c => c.cells.length) :=
    List.mem_map_of_mem _ hc
  rw [h] at hmem
  rcases List.mem_map.mp hmem with ⟨c2, hc2, he⟩
  rw [← he]
  exact h2 c2 hc2

theorem dedup_all_len (df : DataFrame) :
    ∀ c ∈ (drop_duplicates df).cols, c.cells.length = (keepIdxs df).length := by
  intro c hc
  rw [drop_duplicates_cols] at hc
  rcases List.mem_map.mp hc with ⟨c0, _, rfl⟩
  simp

theorem keepIdxs_length_le (df : DataFrame) : (keepIdxs df).length ≤ numRows df := by
  calc (keepIdxs df).length ≤ (List.range (numRows df)).length :=
        List.length_filter_le _ _
    _ = numRows df := List.length_range _

/-- Every column of the cleaned frame has exactly as many cells as there are
kept (de-duplicated) row indices. -/
theorem clean_all_len (df : DataFrame) :
    ∀ c ∈ (clean_dataframe df).cols,
      c.cells.length = (keepIdxs (standardize_column_names df)).length := by
  have h6 : ∀ c ∈ (clean_text_data (handle_outliers (fix_data_types (handle_missing_values
      (drop_duplicates (standardize_column_names df)))))).cols,
      c.cells.length = (keepIdxs (standardize_column_names df)).length := by
    refine all_len_of_map_len_eq ?_ (dedup_all_len (standardize_column_names df))
    rw [clean_text_cells_len, handle_outliers_cells_len, fix_data_types_cells_len,
      handle_missing_cells_len]
  have h7 : ∀ c ∈ (remove_sparse_columns (clean_text_data (handle_outliers (fix_data_types
      (handle_missing_values (drop_duplicates (standardize_column_names df))))))).cols,
      c.cells.length = (keepIdxs (standardize_column_names df)).length := by
    intro c hc
    unfold remove_sparse_columns at hc
    exact h6 c (List.mem_of_mem_filter hc)
  refine all_len_of_map_len_eq ?_ h7
  exact standardize_categories_cells_len _

/-- Claim C7: the cleaned frame never has more rows or more columns than the
input frame. -/
theorem clean_dataframe_shrinks_shape (df : DataFrame) :
    numRows (clean_dataframe df) ≤ numRows df ∧
      (clean_dataframe df).cols.length ≤ df.cols.length := by
  constructor
  · have hall := clean_all_len df
    calc numRows (clean_dataframe df)
        ≤ (keepIdxs (standardize_column_names df)).length := numRows_le_of_mem_len hall
      _ ≤ numRows (standardize_column_names df) := keepIdxs_length_le _
      _ = numRows df := numRows_congr (standardize_cols_cells df)
  · have h1 : (standardize_categories (remove_sparse_columns (clean_text_data (handle_outliers
        (fix_data_types (handle_missing_values (drop_duplicates
          (standardize_column_names df)))))))).cols.length ≤ df.cols.length := by
      have hs : (remove_sparse_columns (clean_text_data (handle_outliers (fix_data_types
          (handle_missing_values (drop_duplicates
            (standardize_column_names df))))))).cols.length ≤ df.cols.length := by
        calc (remove_sparse_columns (clean_text_data (handle_outliers (fix_data_types
              (handle_missing_values (drop_duplicates
                (standardize_column_names df))))))).cols.length
            ≤ (clean_text_data (handle_outliers (fix_data_types (handle_missing_values
                (drop_duplicates (standardize_column_names df)))))).cols.length :=
              List.length_filter_le _ _
          _ = df.cols.length := by
              simp [clean_text_data, handle_outliers, fix_data_types, handle_missing_values,
                drop_duplicates, standardize_cols_length]
      simpa [standardize_categories] using hs
    exact h1

/-! ## Name preservation of the row-wise steps (for Claims C2 and C9) -/

theorem to_numeric_col_name {c c2 : Col} (h : to_numeric_col c = some c2) :
    c2.name = c.name := by
  unfold to_numeric_col at h
  cases hm : optionMapM toNumericCell c.cells with
  | none => rw [hm] at h; cases h
  | some pairs =>
    rw [hm] at h
    cases h
    rfl

theorem to_datetime_col_name {c c2 : Col} (h : to_datetime_col c = some c2) :
    c2.name = c.name := by
  unfold to_datetime_col at h
  rcases c with ⟨nm, dt, cl⟩
  cases dt <;> simp only [] at h
  case int64 =>
    cases hm : optionMapM (fun cell => match cell with
      | Cell.na => some Cell.na
      | Cell.num q => (toDatetimeFromNum q).map Cell.dt
      | _ => none) cl with
    | none => rw [hm] at h; cases h
    | some cs => rw [hm] at h; cases h; rfl
  case float64 =>
    cases hm : optionMapM (fun cell => match cell with
      | Cell.na => some Cell.na
      | Cell.num q => (toDatetimeFromNum q).map Cell.dt
      | _ => none) cl with
    | none => rw [hm] at h; cases h
    | some cs => rw [hm] at h; cases h; rfl
  case object =>
    cases hm : optionMapM (fun cell => match cell with
      | Cell.na => some Cell.na
      | Cell.str s => (parseDateStr s).map Cell.dt
      | _ => none) cl with
    | none => rw [hm] at h; cases h
    | some cs => rw [hm] at h; cases h; rfl
  case category => cases h
  case datetime64 => cases h

theorem handle_missing_names (df : DataFrame) :
    (handle_missing_values df).cols.map (fun c => c.name) =
      df.cols.map (fun c => c.name) := by
  refine map_proj_map ?_ df.cols
  intro c
  rcases c with ⟨nm, dt, cl⟩
  cases dt <;> rfl

theorem fix_data_types_names (df : DataFrame) :
    (fix_data_types df).cols.map (fun c => c.name) = df.cols.map (fun c => c.name) := by
  refine map_proj_map ?_ df.cols
  intro c
  by_cases hc : c.dtype = Dtype.object
  · rw [if_pos hc]
    cases hn : to_numeric_col c with
    | none =>
      cases hd : to_datetime_col c with
      | none => simp [hn, hd]
      | some c2 => simp [hn, hd, to_datetime_col_name hd]
    | some c1 =>
      cases hd : to_datetime_col c1 with
      | none => simp [hn, hd, to_numeric_col_name hn]
      | some c2 => simp [hn, hd, to_datetime_col_name hd, to_numeric_col_name hn]
  · rw [if_neg hc]

theorem handle_outliers_names (df : DataFrame) :
    (handle_outliers df).cols.map (fun c => c.name) = df.cols.map (fun c => c.name) := by
  refine map_proj_map ?_ df.cols
  intro c
  rcases c with ⟨nm, dt, cl⟩
  cases dt <;> simp only []
  case int64 =>
    cases quantile (colNumVals cl) (normQ 1 4) <;> cases quantile (colNumVals cl) (normQ 3 4) <;>
      rfl
  case float64 =>
    cases quantile (colNumVals cl) (normQ 1 4) <;> cases quantile (colNumVals cl) (normQ 3 4) <;>
      rfl

theorem clean_text_names (df : DataFrame) :
    (clean_text_data df).cols.map (fun c => c.name) = df.cols.map (fun c => c.name) := by
  refine map_proj_map ?_ df.cols
  intro c
  by_cases hc : c.dtype = Dtype.object
  · rw [if_pos hc]
  · rw [if_neg hc]

theorem standardize_categories_names (df : DataFrame) :
    (standardize_categories df).cols.map (fun c => c.name) =
      df.cols.map (fun c => c.name) := by
  refine map_proj_map ?_ df.cols
  intro c
  rcases c with ⟨nm, dt, cl⟩
  cases dt <;> rfl

/-! ## Claim C9: a zero-row frame passes through unharmed -/

theorem Q_div_zero_num (y : Q) : Q.div (Q.ofNat 0) y = Q.ofNat 0 := by
  unfold Q.div normQ Q.ofNat
  simp

theorem map_eq_self_of_eq {l : List Col} {g : Col → Col} (h : ∀ c ∈ l, g c = c) :
    l.map g = l := by
  induction l with
  | nil => rfl
  | cons c t ih =>
    rw [List.map_cons, h c (List.mem_cons_self c t),
      ih fun c2 hc2 => h c2 (List.mem_cons_of_mem c hc2)]

/-- Claim C9: on a frame with zero rows (any number of columns) the pipeline
does not fail, drops no column, replaces no value, and returns every column
under its normalized name with zero rows: the per-column `0/0` ratios compare
false against both thresholds, exactly as pandas' `NaN > t` does. -/
theorem clean_dataframe_empty_rows (df : DataFrame) (h : ∀ c ∈ df.cols, c.cells = []) :
    ((clean_dataframe df).cols.map fun c => c.name) =
      ((standardize_column_names df).cols.map fun c => c.name) ∧
    ∀ c ∈ (clean_dataframe df).cols, c.cells = [] := by
  have hlen0 : ∀ c ∈ df.cols, c.cells.length = 0 := fun c hc => by rw [h c hc]; rfl
  have hstd_len : ∀ c ∈ (standardize_column_names df).cols, c.cells.length = 0 := by
    refine all_len_of_map_len_eq ?_ hlen0
    have hc := congrArg (List.map List.length) (standardize_cols_cells df)
    simpa [List.map_map, Function.comp] using hc
  have hnum0 : numRows (standardize_column_names df) = 0 := by
    rcases hcols : (standardize_column_names df).cols with _ | ⟨c, t⟩
    · simp [numRows, hcols]
    · have := hstd_len c (by rw [hcols]; exact List.mem_cons_self c t)
      simp [numRows, hcols, this]
  have hkeep : keepIdxs (standardize_column_names df) = [] := by
    simp [keepIdxs, hnum0]
  have hclean_len : ∀ c ∈ (clean_dataframe df).cols, c.cells = [] := by
    intro c hc
    have := clean_all_len df c hc
    rw [hkeep] at this
    exact List.length_eq_zero.mp this
  refine ⟨?_, hclean_len⟩
  -- the names survive: no step renames, and the sparse pruner keeps every
  -- column because each 0/0 missing fraction compares false with 0.7
  have h6_len : ∀ c ∈ (clean_text_data (handle_outliers (fix_data_types (handle_missing_values
      (drop_duplicates (standardize_column_names df)))))).cols, c.cells.length = 0 := by
    have hd : ∀ c ∈ (drop_duplicates (standardize_column_names df)).cols,
        c.cells.length = 0 := by
      intro c hc
      have := dedup_all_len (standardize_column_names df) c hc
      rw [hkeep] at this
      exact this
    refine all_len_of_map_len_eq ?_ hd
    rw [clean_text_cells_len, handle_outliers_cells_len, fix_data_types_cells_len,
      handle_missing_cells_len]
  have hsparse : remove_sparse_columns (clean_text_data (handle_outliers (fix_data_types
      (handle_missing_values (drop_duplicates (standardize_column_names df)))))) =
      clean_text_data (handle_outliers (fix_data_types (handle_missing_values
        (drop_duplicates (standardize_column_names df))))) := by
    apply DataFrame.eq_of_cols
    unfold remove_sparse_columns
    apply List.filter_eq_self.mpr
    intro c hc
    have hcl : c.cells = [] := List.length_eq_zero.mp (h6_len c hc)
    rw [hcl]
    have : countNa ([] : List Cell) = 0 := rfl
    rw [this, Q_div_zero_num]
    decide
  show ((standardize_categories (remove_sparse_columns (clean_text_data (handle_outliers
      (fix_data_types (handle_missing_values (drop_duplicates
        (standardize_column_names df)))))))).cols.map fun c => c.name) = _
  rw [standardize_categories_names, hsparse, clean_text_names, handle_outliers_names,
    fix_data_types_names, handle_missing_names]
  rw [drop_duplicates_cols]
  exact @map_proj_map String
    (fun c => { c with cells := ((keepIdxs (standardize_column_names df)).map
      fun i => c.cells.getD i Cell.na) })
    (fun c => c.name) (fun c => rfl) (standardize_column_names df).cols

/-- Witness for C9 on a concrete two-column, zero-row frame. -/
theorem clean_dataframe_empty_rows_witness :
    ((clean_dataframe ⟨[⟨"A Col", Dtype.object, []⟩, ⟨"B", Dtype.float64, []⟩]⟩).cols.map
      fun c => c.name) =
      ((standardize_column_names ⟨[⟨"A Col", Dtype.object, []⟩,
        ⟨"B", Dtype.float64, []⟩]⟩).cols.map fun c => c.name) ∧
    ∀ c ∈ (clean_dataframe ⟨[⟨"A Col", Dtype.object, []⟩,
        ⟨"B", Dtype.float64, []⟩]⟩).cols, c.cells = [] :=
  clean_dataframe_empty_rows ⟨[⟨"A Col", Dtype.object, []⟩, ⟨"B", Dtype.float64, []⟩]⟩
    (by decide)

/-! ## Claim C2 (amended): tracking an all-missing float column -/

theorem getD_na_of_all_na {cl : List Cell} (h : ∀ x ∈ cl, x = Cell.na) (i : Nat) :
    cl.getD i Cell.na = Cell.na := by
  induction cl generalizing i with
  | nil => cases i <;> rfl
  | cons a t ih =>
    cases i with
    | zero => simpa using h a (List.mem_cons_self a t)
    | succ j => simpa using ih (fun x hx => h x (List.mem_cons_of_mem a hx)) j

theorem colNumVals_all_na {cl : List Cell} (h : ∀ x ∈ cl, x = Cell.na) :
    colNumVals cl = [] := by
  unfold colNumVals
  rw [List.filterMap_eq_nil_iff]
  intro x hx
  rw [h x hx]

theorem fillNumeric_all_na {cl : List Cell} (h : ∀ x ∈ cl, x = Cell.na) :
    fillNumeric cl = cl := by
  unfold fillNumeric
  rw [colNumVals_all_na h]
  rfl

theorem countNa_all_na {cl : List Cell} (h : ∀ x ∈ cl, x = Cell.na) :
    countNa cl = cl.length := by
  unfold countNa
  rw [List.countP_eq_length]
  intro x hx
  simp [h x hx]

theorem numRows_eq_of_mem_len {df : DataFrame} {L : Nat}
    (h : ∀ c ∈ df.cols, c.cells.length = L) (hne : df.cols ≠ []) : numRows df = L := by
  rcases df with ⟨cs⟩
  cases cs with
  | nil => exact absurd rfl hne
  | cons c t => exact h c (List.mem_cons_self c t)

theorem Q_div_ofNat_self {n : Nat} (hn : n ≠ 0) :
    Q.div (Q.ofNat n) (Q.ofNat n) = Q.ofNat 1 := by
  have h1 : ((n : Int) * ((1 : Nat) : Int) * Int.sign (n : Int)) = (n : Int) := by
    rcases n with _ | m
    · exact absurd rfl hn
    · rw [show Int.sign ((m + 1 : Nat) : Int) = 1 from rfl]
      simp
  have h2 : 1 * ((n : Int)).natAbs = n := by simp
  show normQ ((n : Int) * ((1 : Nat) : Int) * Int.sign (n : Int)) (1 * ((n : Int)).natAbs) =
    Q.ofNat 1
  rw [h1, h2]
  unfold normQ
  rw [if_neg hn, if_neg (Nat.cast_ne_zero.mpr hn : ((n : Int)) ≠ 0)]
  rcases n with _ | m
  · exact absurd rfl hn
  · rw [show ((m + 1 : Nat) : Int).natAbs = m + 1 from rfl,
      show Int.sign ((m + 1 : Nat) : Int) = 1 from rfl, Nat.gcd_self]
    simp [Nat.div_self (Nat.succ_pos m), Q.ofNat]

theorem eq_of_name_mem {l : List Col} (hnd : (l.map fun c => c.name).Nodup)
    {a b : Col} (ha : a ∈ l) (hb : b ∈ l) (hn : a.name = b.name) : a = b := by
  induction l with
  | nil => cases ha
  | cons c t ih =>
    rw [List.map_cons, List.nodup_cons] at hnd
    rcases List.mem_cons.mp ha with rfl | ha2
    · rcases List.mem_cons.mp hb with rfl | hb2
      · rfl
      · exact absurd (hn ▸ List.mem_map_of_mem (fun c => c.name) hb2) hnd.1
    · rcases List.mem_cons.mp hb with rfl | hb2
      · exact absurd (hn ▸ List.mem_map_of_mem (fun c => c.name) ha2) hnd.1
      · exact ih hnd.2 ha2 hb2

/-- An all-missing float64 column passes unchanged through imputation (NaN
median), type fixing (not object), outlier capping (NaN quantiles) and text
cleaning (not object): membership is preserved verbatim. -/
theorem steps_preserve_all_na_float {d : DataFrame} {c : Col} (hc : c ∈ d.cols)
    (hdt : c.dtype = Dtype.float64) (h : ∀ x ∈ c.cells, x = Cell.na) :
    c ∈ (clean_text_data (handle_outliers (fix_data_types (handle_missing_values d)))).cols := by
  rcases c with ⟨nm, dt, cl⟩
  cases hdt
  have h1 : (⟨nm, Dtype.float64, cl⟩ : Col) ∈ (handle_missing_values d).cols := by
    have := List.mem_map_of_mem (fun c : Col =>
      match c.dtype with
      | Dtype.int64 => { c with cells := fillNumeric c.cells }
      | Dtype.float64 => { c with cells := fillNumeric c.cells }
      | Dtype.object => { c with cells := fillCategorical c.cells }
      | Dtype.category => { c with cells := fillCategorical c.cells }
      | Dtype.datetime64 => c) hc
    simpa [handle_missing_values, fillNumeric_all_na h] using this
  have h2 : (⟨nm, Dtype.float64, cl⟩ : Col) ∈ (fix_data_types (handle_missing_values d)).cols := by
    have := List.mem_map_of_mem (fun c : Col =>
      if c.dtype = Dtype.object then
        let c1 := match to_numeric_col c with
          | some c2 => c2
          | none => c
        match to_datetime_col c1 with
        | some c2 => c2
        | none => c1
      else c) h1
    simpa [fix_data_types] using this
  have h3 : (⟨nm, Dtype.float64, cl⟩ : Col) ∈
      (handle_outliers (fix_data_types (handle_missing_values d))).cols := by
    have := List.mem_map_of_mem (fun c : Col =>
      match c.dtype with
      | Dtype.int64 =>
        match quantile (colNumVals c.cells) (normQ 1 4), quantile (colNumVals c.cells) (normQ 3 4) with
        | some q1, some q3 =>
          let iqr := Q.sub q3 q1
          let lo := Q.sub q1 (Q.mul (normQ 3 2) iqr)
          let hi := Q.add q3 (Q.mul (normQ 3 2) iqr)
          { c with cells := c.cells.map (clipCell lo hi) }
        | _, _ => c
      | Dtype.float64 =>
        match quantile (colNumVals c.cells) (normQ 1 4), quantile (colNumVals c.cells) (normQ 3 4) with
        | some q1, some q3 =>
          let iqr := Q.sub q3 q1
          let lo := Q.sub q1 (Q.mul (normQ 3 2) iqr)
          let hi := Q.add q3 (Q.mul (normQ 3 2) iqr)
          { c with cells := c.cells.map (clipCell lo hi) }
        | _, _ => c
      | _ => c) h2
    simpa [handle_outliers, colNumVals_all_na h] using this
  have h4 := List.mem_map_of_mem (fun c : Col =>
    if c.dtype = Dtype.object then { c with cells := c.cells.map cleanTextCell } else c) h3
  simpa [clean_text_data] using h4

/-- Claim C2 (amended): the sparse pruner measures missingness after
imputation and text cleaning, so the columns it removes are those still
missing at that point.  For any frame with at least one row, canonical and
pairwise-distinct column names, and a float64 column that is entirely
missing, that column is absent from `clean_dataframe`'s output: its median is
undefined, `fillna` is a no-op, and its missing fraction at pruning time is
1 > 0.7.  (A column whose input missing fraction merely exceeds 0.7 is
imputed earlier and retained — see the counterexample.) -/
theorem all_missing_float_column_dropped (df : DataFrame) (col : Col)
    (hstd : standardize_column_names df = df)
    (hnd : (df.cols.map fun c => c.name).Nodup)
    (hmem : col ∈ df.cols)
    (hdt : col.dtype = Dtype.float64)
    (hna : ∀ x ∈ col.cells, x = Cell.na)
    (hrows : 1 ≤ numRows df) :
    col.name ∉ ((clean_dataframe df).cols.map fun c => c.name) := by
  have hcd : clean_dataframe df = standardize_categories (remove_sparse_columns (clean_text_data
      (handle_outliers (fix_data_types (handle_missing_values (drop_duplicates df)))))) := by
    show standardize_categories (remove_sparse_columns (clean_text_data (handle_outliers
      (fix_data_types (handle_missing_values (drop_duplicates
        (standardize_column_names df))))))) = _
    rw [hstd]
  have hKmem : 0 ∈ keepIdxs df := by
    unfold keepIdxs
    rw [List.mem_filter]
    exact ⟨List.mem_range.mpr hrows, by simp⟩
  have hKpos : 0 < (keepIdxs df).length :=
    List.length_pos.mpr (List.ne_nil_of_mem hKmem)
  have hcol' : ({ col with cells := ((keepIdxs df).map fun i => col.cells.getD i Cell.na) } : Col)
      ∈ (drop_duplicates df).cols := by
    rw [drop_duplicates_cols]
    exact List.mem_map_of_mem _ hmem
  have hna' : ∀ x ∈ ((keepIdxs df).map fun i => col.cells.getD i Cell.na), x = Cell.na := by
    intro x hx
    rcases List.mem_map.mp hx with ⟨i, _, rfl⟩
    exact getD_na_of_all_na hna i
  have hmem6 : ({ col with cells := ((keepIdxs df).map fun i => col.cells.getD i Cell.na) } : Col)
      ∈ (clean_text_data (handle_outliers (fix_data_types (handle_missing_values
        (drop_duplicates df))))).cols :=
    steps_preserve_all_na_float hcol' hdt hna'
  have hnames6 : (clean_text_data (handle_outliers (fix_data_types (handle_missing_values
      (drop_duplicates df))))).cols.map (fun c => c.name) = df.cols.map (fun c => c.name) := by
    rw [clean_text_names, handle_outliers_names, fix_data_types_names, handle_missing_names,
      drop_duplicates_cols]
    exact @map_proj_map String
      (fun c => { c with cells := ((keepIdxs df).map fun i => c.cells.getD i Cell.na) })
      (fun c => c.name) (fun c => rfl) df.cols
  have hnd6 : ((clean_text_data (handle_outliers (fix_data_types (handle_missing_values
      (drop_duplicates df))))).cols.map fun c => c.name).Nodup := by
    rw [hnames6]
    exact hnd
  have hlen6 : ∀ c ∈ (clean_text_data (handle_outliers (fix_data_types (handle_missing_values
      (drop_duplicates df))))).cols, c.cells.length = (keepIdxs df).length := by
    refine all_len_of_map_len_eq ?_ (dedup_all_len df)
    rw [clean_text_cells_len, handle_outliers_cells_len, fix_data_types_cells_len,
      handle_missing_cells_len]
  have hnum6 : numRows (clean_text_data (handle_outliers (fix_data_types (handle_missing_values
      (drop_duplicates df))))) = (keepIdxs df).length :=
    numRows_eq_of_mem_len hlen6 (List.ne_nil_of_mem hmem6)
  have hdrop : (!(Q.ltB sparseThreshold (Q.div
      (Q.ofNat (countNa ((keepIdxs df).map fun i => col.cells.getD i Cell.na)))
      (Q.ofNat (numRows (clean_text_data (handle_outliers (fix_data_types
        (handle_missing_values (drop_duplicates df)))))))))) = false := by
    rw [hnum6, countNa_all_na hna', List.length_map,
      Q_div_ofNat_self (by omega : (keepIdxs df).length ≠ 0)]
    decide
  rw [hcd]
  intro hcontra
  rw [standardize_categories_names] at hcontra
  rcases List.mem_map.mp hcontra with ⟨c2, hc2mem, hc2name⟩
  have hc2 : c2 ∈ (clean_text_data (handle_outliers (fix_data_types (handle_missing_values
      (drop_duplicates df))))).cols ∧
      (!(Q.ltB sparseThreshold (Q.div (Q.ofNat (countNa c2.cells))
        (Q.ofNat (numRows (clean_text_data (handle_outliers (fix_data_types
          (handle_missing_values (drop_duplicates df)))))))))) = true :=
    List.mem_filter.mp hc2mem
  have heq : c2 = ({ col with cells := ((keepIdxs df).map fun i => col.cells.getD i Cell.na) } : Col) :=
    eq_of_name_mem hnd6 hc2.1 hmem6 hc2name
  have hfil := hc2.2
  rw [heq] at hfil
  rw [hdrop] at hfil
  cases hfil

/-- Witness for the amended C2 on a concrete frame: the all-missing float
column "x" is dropped. -/
theorem all_missing_float_column_dropped_witness :
    (⟨"x", Dtype.float64, [Cell.na, Cell.na]⟩ : Col).name ∉
      ((clean_dataframe ⟨[⟨"id", Dtype.int64, [Cell.num (Q.ofNat 1), Cell.num (Q.ofNat 2)]⟩,
        ⟨"x", Dtype.float64, [Cell.na, Cell.na]⟩]⟩).cols.map fun c => c.name) :=
  all_missing_float_column_dropped
    ⟨[⟨"id", Dtype.int64, [Cell.num (Q.ofNat 1), Cell.num (Q.ofNat 2)]⟩,
      ⟨"x", Dtype.float64, [Cell.na, Cell.na]⟩]⟩
    ⟨"x", Dtype.float64, [Cell.na, Cell.na]⟩
    (by decide) (by decide) (by decide) (by decide) (by decide) (by decide)

/-! ## Claim C10 (amended): shape of the surviving text cells -/

theorem char_le_iff_toNat {a b : Char} : a ≤ b ↔ a.toNat ≤ b.toNat := Iff.rfl

theorem toNat_ofNat_valid {n : Nat} (h : n.isValidChar) : (Char.ofNat n).toNat = n := by
  rw [Char.ofNat, dif_pos h]
  rfl

theorem pyToLower_not_upper (c : Char) : ¬('A' ≤ pyToLower c ∧ pyToLower c ≤ 'Z') := by
  unfold pyToLower
  by_cases h : 'A' ≤ c ∧ c ≤ 'Z'
  · rw [if_pos h]
    intro hcon
    have h1 : Char.toNat 'A' ≤ c.toNat := char_le_iff_toNat.mp h.1
    have h2 : c.toNat ≤ Char.toNat 'Z' := char_le_iff_toNat.mp h.2
    have ha : Char.toNat 'A' = 65 := rfl
    have hz : Char.toNat 'Z' = 90 := rfl
    have hvalid : (c.toNat + 32).isValidChar := Or.inl (by omega)
    have ht : (Char.ofNat (c.toNat + 32)).toNat = c.toNat + 32 := toNat_ofNat_valid hvalid
    have hcon2 : (Char.ofNat (c.toNat + 32)).toNat ≤ Char.toNat 'Z' :=
      char_le_iff_toNat.mp hcon.2
    omega
  · rw [if_neg h]
    exact h

/-- Every cell produced by `clean_text_data` is a string whose characters are
word characters or whitespace, with no ASCII uppercase letter. -/
theorem cleanTextCell_prop (cell : Cell) : ∃ s : String, cleanTextCell cell = Cell.str s ∧
    ∀ ch ∈ s.data, (isWordCh ch || ch.isWhitespace) = true ∧ ¬('A' ≤ ch ∧ ch ≤ 'Z') := by
  refine ⟨_, rfl, ?_⟩
  intro ch hch
  have hch2 : ch ∈ List.filter (fun c => isWordCh c || c.isWhitespace)
      (List.map pyToLower (pyStrip (pyStr cell).data)) := hch
  constructor
  · exact (List.mem_filter.mp hch2).2
  · have hmem2 : ch ∈ (pyStrip (pyStr cell).data).map pyToLower :=
      (List.mem_filter.mp hch2).1
    rcases List.mem_map.mp hmem2 with ⟨c0, _, rfl⟩
    exact pyToLower_not_upper c0

/-- Claim C10 (amended): after `clean_dataframe`, every cell of every
object-dtype column is a string — never a missing marker — and is either the
rare-category sentinel "Other" or consists only of word characters and
whitespace with no ASCII uppercase letter (the imputation fallback label
therefore surfaces lowercased, e.g. "unknown").  Leading/trailing whitespace
can survive, because special-character removal runs after stripping — see
the counterexample. -/
theorem output_object_cells_normalized_or_other (df : DataFrame) :
    ∀ c ∈ (clean_dataframe df).cols, c.dtype = Dtype.object →
      ∀ x ∈ c.cells, ∃ s : String, x = Cell.str s ∧
        (s = "Other" ∨ ∀ ch ∈ s.data,
          (isWordCh ch || ch.isWhitespace) = true ∧ ¬('A' ≤ ch ∧ ch ≤ 'Z')) := by
  have h6 : ∀ c ∈ (clean_text_data (handle_outliers (fix_data_types (handle_missing_values
      (drop_duplicates (standardize_column_names df)))))).cols, c.dtype = Dtype.object →
      ∀ x ∈ c.cells, ∃ s : String, x = Cell.str s ∧
        ∀ ch ∈ s.data, (isWordCh ch || ch.isWhitespace) = true ∧ ¬('A' ≤ ch ∧ ch ≤ 'Z') := by
    intro c hc hdt x hx
    rcases List.mem_map.mp hc with ⟨c0, _, rfl⟩
    by_cases h0 : c0.dtype = Dtype.object
    · rw [if_pos h0] at hx
      rcases List.mem_map.mp hx with ⟨y, _, rfl⟩
      exact cleanTextCell_prop y
    · rw [if_neg h0] at hdt
      exact absurd hdt h0
  have h7 : ∀ c ∈ (remove_sparse_columns (clean_text_data (handle_outliers (fix_data_types
      (handle_missing_values (drop_duplicates (standardize_column_names df))))))).cols,
      c.dtype = Dtype.object →
      ∀ x ∈ c.cells, ∃ s : String, x = Cell.str s ∧
        ∀ ch ∈ s.data, (isWordCh ch || ch.isWhitespace) = true ∧ ¬('A' ≤ ch ∧ ch ≤ 'Z') := by
    intro c hc
    exact h6 c (List.mem_of_mem_filter hc)
  intro c hc hdt x hx
  rcases List.mem_map.mp hc with ⟨c0, hc0, rfl⟩
  rcases c0 with ⟨nm, dt, cl⟩
  cases dt
  case object =>
    simp only [] at hx
    rcases List.mem_map.mp hx with ⟨y, hy, rfl⟩
    rcases h7 _ hc0 rfl y hy with ⟨s, rfl, hs⟩
    by_cases hrare : Q.ltB (Q.div (Q.ofNat ((colStrVals cl).count s))
        (Q.ofNat (numRows (remove_sparse_columns (clean_text_data (handle_outliers
          (fix_data_types (handle_missing_values (drop_duplicates
            (standardize_column_names df)))))))))) rareThreshold
    · exact ⟨"Other", by simp [hrare], Or.inl rfl⟩
    · exact ⟨s, by simp [hrare], Or.inr hs⟩
  case int64 => exact absurd hdt (by simp)
  case float64 => exact absurd hdt (by simp)
  case category => exact absurd hdt (by simp)
  case datetime64 => exact absurd hdt (by simp)

/-! ## Claims C4 and C5: the duplicate-name loop -/

theorem digitsVal_append (l : List Char) (c : Char) :
    digitsVal (l ++ [c]) = 10 * digitsVal l + (c.toNat - 48) := by
  unfold digitsVal
  rw [List.foldl_append]
  rfl

theorem digitChar_val {r : Nat} (h : r < 10) : (Nat.digitChar r).toNat - 48 = r := by
  interval_cases r <;> rfl

theorem digitChar_digit {r : Nat} (h : r < 10) :
    '0' ≤ Nat.digitChar r ∧ Nat.digitChar r ≤ '9' := by
  interval_cases r <;> exact ⟨by decide, by decide⟩

theorem natReprAux_val : ∀ (fuel n : Nat), n ≤ fuel → digitsVal (natReprAux fuel n) = n := by
  intro fuel
  induction fuel with
  | zero =>
    intro n hn
    interval_cases n
    rfl
  | succ f ih =>
    intro n hn
    cases n with
    | zero => rfl
    | succ m =>
      simp only [natReprAux]
      rw [digitsVal_append]
      have hdiv : (m + 1) / 10 ≤ f := by
        have := Nat.div_lt_self (Nat.succ_pos m) (by norm_num : 1 < 10)
        omega
      rw [ih _ hdiv, digitChar_val (Nat.mod_lt _ (by norm_num))]
      omega

theorem natRepr_val (n : Nat) : digitsVal ((natRepr n).data) = n := by
  unfold natRepr
  by_cases h : n = 0
  · rw [if_pos h, h]
    rfl
  · rw [if_neg h]
    exact natReprAux_val n n (Nat.le_refl n)

theorem natRepr_inj {a b : Nat} (h : natRepr a = natRepr b) : a = b := by
  have h2 := congrArg (fun s => digitsVal s.data) h
  simpa [natRepr_val] using h2

theorem natReprAux_chars : ∀ (fuel n : Nat), ∀ c ∈ natReprAux fuel n,
    '0' ≤ c ∧ c ≤ '9' := by
  intro fuel
  induction fuel with
  | zero =>
    intro n c hc
    cases hc
  | succ f ih =>
    intro n c hc
    cases n with
    | zero => cases hc
    | succ m =>
      simp only [natReprAux] at hc
      rcases List.mem_append.mp hc with h1 | h2
      · exact ih _ c h1
      · rw [List.mem_singleton.mp h2]
        exact digitChar_digit (Nat.mod_lt _ (by norm_num))

theorem natRepr_no_underscore (n : Nat) : ∀ c ∈ (natRepr n).data, c ≠ '_' := by
  intro c hc
  unfold natRepr at hc
  by_cases h : n = 0
  · rw [if_pos h] at hc
    have hc0 : c = '0' := by simpa using hc
    rw [hc0]
    decide
  · rw [if_neg h] at hc
    have hd := natReprAux_chars n n c hc
    intro heq
    rw [heq] at hd
    exact absurd hd (by decide)

/-- Splitting at the last separator is unambiguous when neither suffix
contains the separator. -/
theorem append_sep_inj : ∀ (a s b t : List Char), '_' ∉ s → '_' ∉ t →
    a ++ '_' :: s = b ++ '_' :: t → a = b ∧ s = t := by
  intro a
  induction a with
  | nil =>
    intro s b t hs ht h
    cases b with
    | nil => simpa using h
    | cons x b2 =>
      simp only [List.nil_append, List.cons_append, List.cons.injEq] at h
      rcases h with ⟨hx, h2⟩
      rw [h2] at hs
      exact absurd (List.mem_append_right b2 (List.mem_cons_self '_' t)) hs
  | cons x a2 ih =>
    intro s b t hs ht h
    cases b with
    | nil =>
      simp only [List.cons_append, List.nil_append, List.cons.injEq] at h
      rcases h with ⟨hx, h2⟩
      rw [← h2] at ht
      exact absurd (List.mem_append_right a2 (List.mem_cons_self '_' s)) ht
    | cons y b2 =>
      simp only [List.cons_append, List.cons.injEq] at h
      rcases h with ⟨rfl, h2⟩
      rcases ih s b2 t hs ht h2 with ⟨rfl, rfl⟩
      exact ⟨rfl, rfl⟩

theorem string_data_inj {a b : String} (h : a.data = b.data) : a = b :=
  congrArg String.mk h

theorem string_sep_inj {a b r t : String} (hr : ∀ c ∈ r.data, c ≠ '_')
    (ht : ∀ c ∈ t.data, c ≠ '_') (h : a ++ "_" ++ r = b ++ "_" ++ t) : a = b ∧ r = t := by
  have hd := congrArg String.data h
  rw [String.data_append, String.data_append, String.data_append, String.data_append] at hd
  have hu : ("_" : String).data = ['_'] := rfl
  rw [hu, List.append_assoc, List.append_assoc, List.singleton_append,
    List.singleton_append] at hd
  have hr2 : '_' ∉ r.data := fun hm => hr _ hm rfl
  have ht2 : '_' ∉ t.data := fun hm => ht _ hm rfl
  rcases append_sep_inj _ _ _ _ hr2 ht2 hd with ⟨h1, h2⟩
  exact ⟨string_data_inj h1, string_data_inj h2⟩

theorem lookup_bumpSeen (seen : List (String × Nat)) (c : String) (v : Nat) (d : String) :
    lookupSeen (bumpSeen seen c v) d = if c = d then some v else lookupSeen seen d := by
  induction seen with
  | nil => rfl
  | cons kv rest ih =>
    rcases kv with ⟨k, w⟩
    by_cases hk : k = c
    · subst hk
      simp only [bumpSeen, if_pos rfl, lookupSeen]
      by_cases hd : k = d
      · rw [if_pos hd, if_pos hd]
      · rw [if_neg hd, if_neg hd]
        simp only [lookupSeen, if_neg hd]
    · simp only [bumpSeen, if_neg hk, lookupSeen]
      by_cases hd : k = d
      · subst hd
        rw [if_pos rfl]
        have hcd : ¬ c = k := fun h => hk h.symm
        rw [if_neg hcd]
        simp [lookupSeen]
      · rw [if_neg hd, ih]
        by_cases hcd : c = d
        · rw [if_pos hcd, if_pos hcd]
        · rw [if_neg hcd, if_neg hcd]
          simp only [lookupSeen, if_neg hd]

/-- The dictionary loop of the source computes exactly the occurrence-count
formulation. -/
theorem uniquifyGo_eq_spec : ∀ (l : List String) (seen : List (String × Nat))
    (hist : List String),
    (∀ c, lookupSeen seen c = if hist.count c = 0 then none else some (hist.count c)) →
    uniquifyGo seen l = uniquifySpec hist l := by
  intro l
  induction l with
  | nil => intro seen hist _; rfl
  | cons c rest ih =>
    intro seen hist hinv
    simp only [uniquifyGo, uniquifySpec]
    have hc := hinv c
    by_cases h0 : hist.count c = 0
    · rw [if_pos h0] at hc
      rw [hc, if_pos h0]
      show c :: uniquifyGo (bumpSeen seen c 1) rest = c :: uniquifySpec (hist ++ [c]) rest
      congr 1
      apply ih
      intro d
      rw [lookup_bumpSeen]
      by_cases hd : c = d
      · subst hd
        rw [if_pos rfl]
        have h1c : List.count c [c] = 1 := by simp
        have hcnt : (hist ++ [c]).count c = 1 := by
          rw [List.count_append, h0, h1c]
        rw [hcnt]
        simp
      · rw [if_neg hd, hinv d]
        have hnotmem : d ∉ [c] := by
          simp only [List.mem_singleton]
          exact fun h => hd h.symm
        have hcnt : (hist ++ [c]).count d = hist.count d := by
          rw [List.count_append, List.count_eq_zero.mpr hnotmem]
          omega
        rw [hcnt]
    · rw [if_neg h0] at hc
      rw [hc, if_neg h0]
      show (c ++ "_" ++ natRepr (hist.count c)) ::
          uniquifyGo (bumpSeen seen c (hist.count c + 1)) rest =
        (c ++ "_" ++ natRepr (hist.count c)) :: uniquifySpec (hist ++ [c]) rest
      congr 1
      apply ih
      intro d
      rw [lookup_bumpSeen]
      by_cases hd : c = d
      · subst hd
        rw [if_pos rfl]
        have h1c : List.count c [c] = 1 := by simp
        have hcnt : (hist ++ [c]).count c = hist.count c + 1 := by
          rw [List.count_append, h1c]
        rw [hcnt]
        simp
      · rw [if_neg hd, hinv d]
        have hnotmem : d ∉ [c] := by
          simp only [List.mem_singleton]
          exact fun h => hd h.symm
        have hcnt : (hist ++ [c]).count d = hist.count d := by
          rw [List.count_append, List.count_eq_zero.mpr hnotmem]
          omega
        rw [hcnt]

theorem uniquify_eq_spec (l : List String) : uniquify l = uniquifySpec [] l := by
  apply uniquifyGo_eq_spec
  intro c
  rfl

/-- Every output of the duplicate-handling loop is either a base name whose
prior occurrence count was zero, or that base name suffixed with its prior
occurrence count. -/
theorem uniquifySpec_mem : ∀ (l hist : List String) (x : String), x ∈ uniquifySpec hist l →
    ∃ pre c suf, l = pre ++ c :: suf ∧
      ((hist ++ pre).count c = 0 ∧ x = c ∨
       1 ≤ (hist ++ pre).count c ∧ x = c ++ "_" ++ natRepr ((hist ++ pre).count c)) := by
  intro l
  induction l with
  | nil =>
    intro hist x hx
    cases hx
  | cons c rest ih =>
    intro hist x hx
    simp only [uniquifySpec] at hx
    rcases List.mem_cons.mp hx with heq | hmem
    · refine ⟨[], c, rest, rfl, ?_⟩
      rw [List.append_nil]
      by_cases h0 : hist.count c = 0
      · exact Or.inl ⟨h0, by rw [if_pos h0] at heq; exact heq⟩
      · exact Or.inr ⟨Nat.one_le_iff_ne_zero.mpr h0, by rw [if_neg h0] at heq; exact heq⟩
    · rcases ih (hist ++ [c]) x hmem with ⟨pre, d, suf, hsplit, hprop⟩
      refine ⟨c :: pre, d, suf, by rw [hsplit]; rfl, ?_⟩
      have hass : hist ++ c :: pre = (hist ++ [c]) ++ pre := by simp
      rw [hass]
      exact hprop

/-- Under the no-literal-suffix-collision hypothesis the outputs of the loop
are pairwise distinct: fresh bases differ from each other, a fresh base never
matches a generated suffixed name (hypothesis), and two generated names agree
only on equal bases and equal counters, which distinct positions cannot
produce. -/
theorem uniquifySpec_nodup (L : List String)
    (H : ∀ b ∈ L, ∀ c ∈ L, ∀ k < L.length + 1, 1 ≤ k → b ≠ c ++ "_" ++ natRepr k) :
    ∀ (l hist : List String), hist ++ l = L → (uniquifySpec hist l).Nodup := by
  intro l
  induction l with
  | nil =>
    intro hist _
    exact List.nodup_nil
  | cons c rest ih =>
    intro hist hL
    simp only [uniquifySpec]
    rw [List.nodup_cons]
    have hlenhist : hist.length + (rest.length + 1) = L.length := by
      have h2 := congrArg List.length hL
      rw [List.length_append, List.length_cons] at h2
      exact h2
    have hcL : c ∈ L := by
      rw [← hL]
      exact List.mem_append_right hist (List.mem_cons_self c rest)
    refine ⟨?_, ?_⟩
    · intro hmem
      rcases uniquifySpec_mem rest (hist ++ [c]) _ hmem with ⟨pre, d, suf, hsplit, hprop⟩
      have hdL : d ∈ L := by
        rw [← hL]
        refine List.mem_append_right hist (List.mem_cons_of_mem c ?_)
        rw [hsplit]
        exact List.mem_append_right pre (List.mem_cons_self d suf)
      have hL2 : hist ++ c :: (pre ++ d :: suf) = L := by
        rw [← hsplit]
        exact hL
      have hlenpre : hist.length + ((pre.length + (suf.length + 1)) + 1) = L.length := by
        have h2 := congrArg List.length hL2
        rw [List.length_append, List.length_cons, List.length_append, List.length_cons] at h2
        exact h2
      have h4 : ((hist ++ [c]) ++ pre).length = hist.length + 1 + pre.length := by
        rw [List.length_append, List.length_append]
        rfl
      have hcount_led : ((hist ++ [c]) ++ pre).count d ≤ ((hist ++ [c]) ++ pre).length :=
        List.count_le_length d _
      have hhist_le : hist.count c ≤ hist.length := List.count_le_length c hist
      rcases hprop with ⟨h0, heq⟩ | ⟨h1, heq⟩
      · by_cases hb : hist.count c = 0
        · rw [if_pos hb] at heq
          rw [← heq] at h0
          have hcmem : c ∈ (hist ++ [c]) ++ pre :=
            List.mem_append_left pre (List.mem_append_right hist (List.mem_cons_self c []))
          exact absurd hcmem (List.count_eq_zero.mp h0)
        · rw [if_neg hb] at heq
          exact H d hdL c hcL (hist.count c) (by omega)
            (Nat.one_le_iff_ne_zero.mpr hb) heq.symm
      · by_cases hb : hist.count c = 0
        · rw [if_pos hb] at heq
          exact H c hcL d hdL (((hist ++ [c]) ++ pre).count d) (by omega) h1 heq
        · rw [if_neg hb] at heq
          rcases string_sep_inj (natRepr_no_underscore _) (natRepr_no_underscore _) heq
            with ⟨hcd, hrr⟩
          subst hcd
          have hkk := natRepr_inj hrr
          rw [List.count_append, List.count_append] at hkk
          have h1c : List.count c [c] = 1 := by simp
          rw [h1c] at hkk
          omega
    · apply ih (hist ++ [c])
      rw [← hL]
      simp

theorem zipWith_rename_names : ∀ (cols : List Col) (ns : List String), ns.length = cols.length →
    (List.zipWith (fun c n => { c with name := n }) cols ns).map (fun c => c.name) = ns := by
  intro cols
  induction cols with
  | nil =>
    intro ns hlen
    cases ns with
    | nil => rfl
    | cons n t => simp at hlen
  | cons c t ih =>
    intro ns hlen
    cases ns with
    | nil => simp at hlen
    | cons n ns2 =>
      simp only [List.zipWith_cons_cons, List.map_cons]
      rw [ih ns2 (by simpa using hlen)]

/-- Claim C4 (amended): the output names of `standardize_column_names` are
pairwise distinct provided no cleaned raw name collides literally with a
generated suffixed name, i.e. no cleaned name equals another cleaned name
followed by `_k` for a possible counter value `k`.  (Without this proviso the
claim is false — see the counterexample with raw names `a`, `a`, `a_1`.) -/
theorem standardize_names_nodup_of_no_suffix_collision (df : DataFrame)
    (H : ∀ b ∈ df.cols.map (fun c => clean_column_name c.name),
         ∀ c ∈ df.cols.map (fun c => clean_column_name c.name),
         ∀ k < (df.cols.map (fun c => clean_column_name c.name)).length + 1,
           1 ≤ k → b ≠ c ++ "_" ++ natRepr k) :
    ((standardize_column_names df).cols.map fun c => c.name).Nodup := by
  have hnames : ((standardize_column_names df).cols.map fun c => c.name) =
      uniquify (df.cols.map fun c => clean_column_name c.name) := by
    unfold standardize_column_names
    exact zipWith_rename_names df.cols _ (by simp [uniquify_length])
  rw [hnames, uniquify_eq_spec]
  exact uniquifySpec_nodup _ H _ [] rfl

/-- Witness for the amended C4: two distinct raw spellings of "first name"
deduplicate to `first_name` and `first_name_1`, and all three output names
are pairwise distinct. -/
theorem standardize_names_nodup_witness :
    ((standardize_column_names ⟨[⟨"First Name", Dtype.int64, []⟩,
      ⟨"first:name", Dtype.int64, []⟩, ⟨"B", Dtype.int64, []⟩]⟩).cols.map
        fun c => c.name).Nodup :=
  standardize_names_nodup_of_no_suffix_collision
    ⟨[⟨"First Name", Dtype.int64, []⟩, ⟨"first:name", Dtype.int64, []⟩,
      ⟨"B", Dtype.int64, []⟩]⟩ (by decide)

theorem uniquifySpec_of_nodup : ∀ (l hist : List String), l.Nodup →
    (∀ c ∈ l, hist.count c = 0) → uniquifySpec hist l = l := by
  intro l
  induction l with
  | nil =>
    intro hist _ _
    rfl
  | cons c rest ih =>
    intro hist hnd hcnt
    simp only [uniquifySpec]
    rw [if_pos (hcnt c (List.mem_cons_self c rest))]
    congr 1
    have hnd2 := List.nodup_cons.mp hnd
    apply ih _ hnd2.2
    intro d hd
    rw [List.count_append]
    have h1 : hist.count d = 0 := hcnt d (List.mem_cons_of_mem c hd)
    have h2 : List.count d [c] = 0 := by
      apply List.count_eq_zero.mpr
      simp only [List.mem_singleton]
      intro hdc
      rw [hdc] at hd
      exact hnd2.1 hd
    omega

theorem uniquify_of_nodup {l : List String} (h : l.Nodup) : uniquify l = l := by
  rw [uniquify_eq_spec]
  exact uniquifySpec_of_nodup l [] h (fun c _ => rfl)

theorem map_congr_mem {α β : Type} {f g : α → β} :
    ∀ (l : List α), (∀ a ∈ l, f a = g a) → l.map f = l.map g := by
  intro l
  induction l with
  | nil =>
    intro _
    rfl
  | cons a t ih =>
    intro h
    rw [List.map_cons, List.map_cons, h a (List.mem_cons_self a t),
      ih fun b hb => h b (List.mem_cons_of_mem a hb)]

theorem zipWith_self_names : ∀ (cols : List Col),
    List.zipWith (fun c n => { c with name := n }) cols (cols.map fun c => c.name) = cols := by
  intro cols
  induction cols with
  | nil => rfl
  | cons c t ih =>
    simp only [List.map_cons, List.zipWith_cons_cons, ih]

/-- Claim C5 (amended): `standardize_column_names` is idempotent on every
frame whose once-standardized names are pairwise distinct and individually
fixed points of the per-name cleaning function.  (Raw duplicate names whose
generated suffixes collide with other cleaned names break idempotence — see
the counterexample.) -/
theorem standardize_idempotent_of_canonical (df : DataFrame)
    (h1 : ((standardize_column_names df).cols.map fun c => c.name).Nodup)
    (h2 : ∀ n ∈ (standardize_column_names df).cols.map (fun c => c.name),
      clean_column_name n = n) :
    standardize_column_names (standardize_column_names df) = standardize_column_names df := by
  apply DataFrame.eq_of_cols
  have hmapclean : ((standardize_column_names df).cols.map fun c => clean_column_name c.name) =
      ((standardize_column_names df).cols.map fun c => c.name) := by
    apply map_congr_mem
    intro c hc
    exact h2 _ (List.mem_map_of_mem _ hc)
  have hstd2 : (standardize_column_names (standardize_column_names df)).cols =
      List.zipWith (fun c n => { c with name := n }) (standardize_column_names df).cols
        (uniquify ((standardize_column_names df).cols.map fun c => clean_column_name c.name)) :=
    rfl
  rw [hstd2, hmapclean, uniquify_of_nodup h1]
  exact zipWith_self_names _

/-- Witness for the amended C5 on a concrete frame whose names are canonical
and distinct after one pass. -/
theorem standardize_idempotent_witness :
    standardize_column_names (standardize_column_names ⟨[⟨"A Col", Dtype.object, []⟩,
      ⟨"Cat ", Dtype.object, []⟩]⟩) =
      standardize_column_names ⟨[⟨"A Col", Dtype.object, []⟩, ⟨"Cat ", Dtype.object, []⟩]⟩ :=
  standardize_idempotent_of_canonical
    ⟨[⟨"A Col", Dtype.object, []⟩, ⟨"Cat ", Dtype.object, []⟩]⟩ (by decide) (by decide)

/-- Witness for the amended C10: the surviving cell "hi" of a cleaned text
column is a string of word characters with no uppercase letter. -/
theorem output_object_cells_normalized_or_other_witness :
    ∃ s : String, Cell.str "hi" = Cell.str s ∧
      (s = "Other" ∨ ∀ ch ∈ s.data,
        (isWordCh ch || ch.isWhitespace) = true ∧ ¬('A' ≤ ch ∧ ch ≤ 'Z')) :=
  output_object_cells_normalized_or_other
    ⟨[⟨"c", Dtype.object, [Cell.str "Hi!", Cell.str "Hi!"]⟩]⟩
    ⟨"c", Dtype.object, [Cell.str "hi"]⟩ (by decide) rfl (Cell.str "hi") (by decide)

end PipelineCraft

